import Mathlib

/-!
Shallow embedding of `hikari/internal/enums.py`: the `Enum` and `Flag`
re-implementations (registries, flag cast with pseudo-member cache, set
algebra, name resolver, deprecation aliases), together with proofs about
the claims of the specification.

Python `dict`s are modelled as insertion-ordered association lists
(`dictInsert` reproduces `d[k] = v`: overwrite keeps the original position,
a fresh key is appended at the end; `dict.popitem` removes the most recently
inserted entry, i.e. `List.dropLast`).  Python's arbitrary-precision `int`
is modelled as `Int`; its bitwise `&` and `~` are `Int.land` and `Int.lnot`.
Declared flag member values are natural numbers (`Nat`), matching the
"named bit positions over an integer representation" data model.
-/

namespace Enums

/-- Association-list lookup with decidable key equality; models Python
`dict` lookup (`d[k]` / `d.get(k)`).  Keys are unique by construction
(`dictInsert`), so taking the first match is exact. -/
def alookup {κ β : Type} [DecidableEq κ] (k : κ) : List (κ × β) → Option β
  | [] => none
  | p :: rest => if p.1 = k then some p.2 else alookup k rest

/-- Python `d[k] = v` on a `dict`: if the key is present, its value is
replaced in place (keeping the original insertion position); otherwise the
pair is appended at the end. -/
def dictInsert {κ β : Type} [DecidableEq κ] (d : List (κ × β)) (k : κ) (v : β) : List (κ × β) :=
  if (alookup k d).isSome then d.map (fun p => if p.1 = k then (k, v) else p)
  else d ++ [(k, v)]

/-- Python `d.setdefault(k, v)`: insert only if the key is absent. -/
def dictSetdefault {κ β : Type} [DecidableEq κ] (d : List (κ × β)) (k : κ) (v : β) : List (κ × β) :=
  if (alookup k d).isSome then d else d ++ [(k, v)]

/-- Cache capacity `_MAX_CACHED_MEMBERS = 1 << 12` (enums.py line 39). -/
def MAX_CACHED_MEMBERS : Nat := 1 <<< 12

/-- A declared `Flag` type: the `(name, value)` pairs of
`_EnumNamespace.names_to_values` in declaration order, with deprecated
aliases already excluded (the metaclass loop in `_FlagMeta.__new__` skips
`_DeprecatedAlias` entries, see `buildMaps` below for that loop). -/
structure FlagType : Type where
  members : List (String × Nat)

/-- The `_value_to_member_map_` built by the loop in `_FlagMeta.__new__`
(lines 481-497): `value_to_member[value] = member`.  The member owning key
`k` is `(name, k)`; only the name needs storing. -/
def valueToMember (ft : FlagType) : List (Nat × String) :=
  ft.members.foldl (fun d m => dictInsert d m.2 m.1) []

/-- The `_powers_of_2_to_member_map_` built by the same loop:
`if not (value & value - 1): powers_of_2_map[value] = member`
(lines 499-500).  Note `0 & (0 - 1) = 0` in Python and `0 &&& (0 - 1) = 0`
in `Nat`, so a declared zero value is also included, as in the source. -/
def powersOf2Map (ft : FlagType) : List (Nat × String) :=
  ft.members.foldl (fun d m => if m.2 &&& (m.2 - 1) = 0 then dictInsert d m.2 m.1 else d) []

/-- The value of `__everything__`: `functools.reduce(operator.or_,
value_to_member.keys())` (line 502).  `reduce` without initial value needs
a nonempty map; `foldl` from `0` agrees with it on every nonempty map. -/
def everything (ft : FlagType) : Nat :=
  (valueToMember ft).foldl (fun a p => a ||| p.1) 0

/-- Lookup of an `int` value in `_value_to_member_map_` (whose keys are the
declared natural-number values).  Returns the owning member `(name, value)`. -/
def lookupValue (ft : FlagType) (v : Int) : Option (String × Nat) :=
  ((valueToMember ft).find? (fun p => (p.1 : Int) = v)).map (fun p => (p.2, p.1))

/-- The pseudo-member cache `_temp_members_`: keys of the cached
pseudo-members in insertion order.  A cached pseudo-member for key `v` has
`_value_ = v`, so storing keys suffices. -/
abbrev Cache : Type := List Int

/-- The cache path of `_FlagMeta.__call__` (lines 396-412): on a cache hit
return the cached pseudo-member; otherwise synthesize a pseudo-member with
`_value_ = value`, append it to the cache, and if the cache now exceeds
`_MAX_CACHED_MEMBERS`, `popitem()` removes the most recently inserted
entry — the pseudo-member just added. -/
def castCache (c : Cache) (v : Int) : Int × Cache :=
  if List.contains c v then (v, c)
  else
    let c1 : List Int := c ++ [v]
    (v, if MAX_CACHED_MEMBERS < c1.length then c1.dropLast else c1)

/-- The body of `_FlagMeta.__call__` for a non-negative argument: exact
declared match, else the cache path.  The `value < 0` branch of the source
cannot fire on a non-negative argument; `flagCast` below is the full call
and `flagCast_eq_castNonneg` checks the agreement. -/
def castNonneg (ft : FlagType) (c : Cache) (v : Int) : Int × Cache :=
  match lookupValue ft v with
  | some m => ((m.2 : Int), c)
  | none => castCache c v

/-- Full `_FlagMeta.__call__(cls, value)` (lines 381-412), returning the
value of the returned member together with the updated cache.  For a
negative value with no exact match the source computes
`cls.__everything__ - ~value`: `difference` is
`cls(self & ~int(other))` and `&` is `intersection`, i.e.
`cls(self._value_ & int(other))`, so two further casts run — first on
`everything & ~~value`, then on the value of the member that returned.
Both of those arguments are non-negative (`int_land_nonneg` below), so the
recursive calls are `castNonneg`. -/
def flagCast (ft : FlagType) (c : Cache) (v : Int) : Int × Cache :=
  match lookupValue ft v with
  | some m => ((m.2 : Int), c)
  | none =>
    if v < 0 then
      let w := Int.lnot v
      let p1 := castNonneg ft c (Int.land (everything ft : Int) (Int.lnot w))
      castNonneg ft p1.2 p1.1
    else castCache c v

/-- Value of the member returned by a cast; the returned value does not
depend on the cache (`flagCast_fst` below). -/
def castVal (ft : FlagType) (v : Int) : Int :=
  (flagCast ft [] v).1

/-- Fold a sequence of casts through the cache. -/
def castMany (ft : FlagType) (c : Cache) (vs : List Int) : Cache :=
  vs.foldl (fun c v => (flagCast ft c v).2) c

/-- The `Flag.__call__` entry point with its default argument
(`def __call__(cls, value: int = 0)`): `FlagType()` casts `0`. -/
def flagCastDefault (ft : FlagType) (c : Cache) : Int × Cache :=
  flagCast ft c 0

/-- Value of `Flag.intersection` (`&`): `self.__class__(self._value_ & int(other))`
(line 719).  Member equality (`==`) compares the underlying `int` values, so
only the value of the returned member matters. -/
def intersection (ft : FlagType) (a b : Int) : Int :=
  castVal ft (Int.land a b)

/-- Value of `Flag.difference` (`-`): `self.__class__(self & ~int(other))`
(line 712) — the inner `self & ~int(other)` is `intersection`, itself a
cast, and the outer constructor call casts the value of that member again. -/
def difference (ft : FlagType) (a b : Int) : Int :=
  castVal ft (castVal ft (Int.land a (Int.lnot b)))

/-- Source `Flag.is_subset` (lines 734-739): `return (self & other) == other`. -/
def is_subset (ft : FlagType) (a b : Int) : Bool :=
  decide (intersection ft a b = b)

/-- Source `Flag.is_superset` (lines 741-743): `return (self & other) == self`. -/
def is_superset (ft : FlagType) (a b : Int) : Bool :=
  decide (intersection ft a b = a)

/-- Lexicographic string order on the member name, the sort key of
`Flag.split` (`key=lambda m: m._name_`); Python compares strings
lexicographically by code point, which is exactly `List.le` on `.data`
with `Char` ordered by code point. -/
def byName (a b : String × Nat) : Prop := a.1.data ≤ b.1.data

instance : DecidableRel byName := fun a b => inferInstanceAs (Decidable (a.1.data ≤ b.1.data))

instance : IsTotal (String × Nat) byName := ⟨fun a b => le_total a.1.data b.1.data⟩

instance : IsTrans (String × Nat) byName := ⟨fun _ _ _ => le_trans⟩

/-- Bitwise OR of a list of naturals. -/
def natOr (l : List Nat) : Nat := l.foldr (fun a b => a ||| b) 0

/-- Members of `_powers_of_2_to_member_map_` as `(name, value)` pairs, in
map order (`powers_of_2_map.values()`). -/
def powersMembers (ft : FlagType) : List (String × Nat) :=
  (powersOf2Map ft).map (fun p => (p.2, p.1))

/-- Source `Flag.split` (lines 759-770): `sorted((member for member in
cls._powers_of_2_to_member_map_.values() if member.value & self), key=lambda
m: m._name_)`.  Python `sorted` is a stable sort by the key; a stable
insertion sort computes the same list. -/
def split (ft : FlagType) (v : Nat) : List (String × Nat) :=
  List.insertionSort byName ((powersMembers ft).filter (fun m => m.2 &&& v ≠ 0))

/-- Python `f"{n:x}"`: lowercase hexadecimal digits of `n`. -/
def hexStr (n : Nat) : String :=
  (Nat.toDigits 16 n).asString

/-- The `while bit <= value` loop of `_name_resolver` (lines 361-372),
returning the yielded names and the final `remaining`.  `has_yielded` is
recovered as "the token list is nonempty".  `members.get(bit)` finds the
declared member with `_value_ = bit`; the guard `member and ...` is its
truthiness, which holds whenever the lookup succeeds since the key
`bit ≥ 1` equals the member value. -/
def nameLoop (members : List (Nat × String)) (value : Nat) (bit remaining : Nat)
    (hb : 0 < bit) : List String × Nat :=
  if _h : bit ≤ value then
    match alookup bit members with
    | some n =>
      if bit &&& remaining = bit then
        let r := nameLoop members value (2 * bit) (remaining ^^^ bit) (by omega)
        (n :: r.1, r.2)
      else nameLoop members value (2 * bit) remaining (by omega)
    | none => nameLoop members value (2 * bit) remaining (by omega)
  else ([], remaining)
termination_by value + 1 - bit
decreasing_by all_goals omega

/-- Full `_name_resolver(members, value)` (lines 360-377): the loop tokens,
then `UNKNOWN 0x<hex>` when nothing was yielded, else the leftover
`hex(remaining)` token when `remaining` is nonzero. -/
def nameResolver (members : List (Nat × String)) (value : Nat) : List String :=
  let r := nameLoop members value 1 value (by omega)
  if r.1.isEmpty then ["UNKNOWN 0x" ++ hexStr value]
  else if r.2 ≠ 0 then r.1 ++ ["0x" ++ hexStr r.2]
  else r.1

/-- The `Flag.name` property for a member with `_name_ = None` (lines
671-676): `"|".join(_name_resolver(self._value_to_member_map_, self._value_))`. -/
def displayName (ft : FlagType) (v : Nat) : String :=
  String.intercalate "|" (nameResolver (valueToMember ft) v)

/-- The example flag of the specification: `READ = 1, WRITE = 2, EXECUTE = 4`. -/
def ftRWE : FlagType :=
  ⟨[("READ", 1), ("WRITE", 2), ("EXECUTE", 4)]⟩

/-- A flag with a declared composite member whose bit `4` is not declared
as any power-of-two member: `A = 1, B = 6` (`6 = 2 ||| 4`, and neither `2`
nor `4` is declared on its own). -/
def ftAB : FlagType :=
  ⟨[("A", 1), ("B", 6)]⟩

/-- A concrete pseudo-member cache filled to capacity, with keys `10, 11,
..., 4105` (none of which collides with the small example values below). -/
def fullCache : Cache :=
  (List.range MAX_CACHED_MEMBERS).map (fun n => Int.ofNat n + 10)

/-- A declaration fed to `_EnumNamespace.__setitem__`: a plain member
assignment `NAME = value`, or a deprecated alias
`NAME = deprecated(value, removal_version=...)`. -/
inductive Decl (α : Type) : Type where
  | member (name : String) (value : α)
  | dep (name : String) (value : α) (removal : String)

/-- The state of `_EnumNamespace`: `names_to_values` and `values_to_names`
(lines 82-83), plus the `_DeprecatedAlias` descriptors stored by
`super().__setitem__` — recorded as `name ↦ (alias target name, removal
version)`. -/
structure EnumNamespace (α : Type) : Type where
  names_to_values : List (String × α)
  values_to_names : List (α × String)
  depAliases : List (String × (String × String))

/-- Fresh namespace. -/
def emptyNamespace {α : Type} : EnumNamespace α :=
  ⟨[], [], []⟩

/-- Python `name.startswith("_")`: the first character is an underscore.
Implemented on the character list so that it evaluates by kernel
reduction. -/
def startsUnderscore (s : String) : Bool :=
  match s.data with
  | [] => false
  | c :: _ => c = '_'

/-- Source `_EnumNamespace.__setitem__` (lines 95-143).  The descriptor
check, the `isinstance(value, self.base)` check and the hashability check
are vacuous here: values are of the base type `α` by typing and every `α`
with decidable equality serves as a map key.  `_DeprecatedAlias.__init__`
also calls the external `deprecation.check_if_past_removal` collaborator,
which is out of scope.  Errors carry the message of the raise. -/
def setItem {α : Type} [DecidableEq α] (ns : EnumNamespace α) :
    Decl α → Except String (EnumNamespace α)
  | .member name value =>
    if name = "" ∨ name = "mro" then .error "Invalid enum member name"
    else if startsUnderscore name then .ok ns
    else if (alookup name ns.names_to_values).isSome then
      .error "Cannot define name multiple times"
    else
      .ok { ns with
            names_to_values := ns.names_to_values ++ [(name, value)],
            values_to_names := dictSetdefault ns.values_to_names value name }
  | .dep name value removal =>
    if name = "" ∨ name = "mro" then .error "Invalid enum member name"
    else
      match alookup value ns.values_to_names with
      | none => .error "deprecated must be used on an existing value"
      | some target =>
        if (alookup name ns.names_to_values).isSome then
          .error "Cannot define name multiple times"
        else
          .ok { ns with
                names_to_values := ns.names_to_values ++ [(name, value)],
                values_to_names := dictSetdefault ns.values_to_names value name,
                depAliases := ns.depAliases ++ [(name, (target, removal))] }

/-- Run all declarations of a type body through `__setitem__`; a raise
aborts the whole type declaration. -/
def buildNamespace {α : Type} [DecidableEq α] (decls : List (Decl α)) :
    Except String (EnumNamespace α) :=
  decls.foldlM setItem emptyNamespace

/-- Member maps built by the loop shared by `_EnumMeta.__new__` (lines
210-227) and `_FlagMeta.__new__` (lines 481-497): iterate
`names_to_values` in declaration order, skip entries whose namespace slot
is a `_DeprecatedAlias`, and register the member in
`_name_to_member_map_`, `_value_to_member_map_` and `_member_names_`. -/
structure BuiltMaps (α : Type) : Type where
  name_to_member : List (String × α)
  value_to_member : List (α × String)
  member_names : List String

/-- The registration loop itself. -/
def buildMaps {α : Type} [DecidableEq α] (ns : EnumNamespace α) : BuiltMaps α :=
  ns.names_to_values.foldl
    (fun bm p =>
      if (alookup p.1 ns.depAliases).isSome then bm
      else
        { name_to_member := dictInsert bm.name_to_member p.1 p.2,
          value_to_member := dictInsert bm.value_to_member p.2 p.1,
          member_names := bm.member_names ++ [p.1] })
    ⟨[], [], []⟩

/-- Source `_EnumMeta.__call__` (lines 154-156):
`return cls._value_to_member_map_.get(value, value)` — the registered
member on a hit, the untouched argument on a miss, never an error. -/
def enumCast {α : Type} [DecidableEq α] (bm : BuiltMaps α) (v : α) : (String × α) ⊕ α :=
  match alookup v bm.value_to_member with
  | some n => Sum.inl (n, v)
  | none => Sum.inr v

/-- A small example enum over `Int`: `X = 1, Y = 2`. -/
def bmXY : BuiltMaps Int :=
  buildMaps
    (((buildNamespace [Decl.member "X" (1 : Int), Decl.member "Y" 2]).toOption).getD
      emptyNamespace)

/-- Declarations of the alias example: `READ = 1, WRITE = 2`, then
`OLD_READ = deprecated(1, removal_version="2.0.0")`. -/
def declsAlias : List (Decl Nat) :=
  [Decl.member "READ" 1, Decl.member "WRITE" 2, Decl.dep "OLD_READ" 1 "2.0.0"]

/-- The namespace built from the alias example. -/
def nsAlias : EnumNamespace Nat :=
  ((buildNamespace declsAlias).toOption).getD emptyNamespace

/-- The namespace with just `READ = 1, WRITE = 2` (the state right before
the alias declaration is processed). -/
def nsRW : EnumNamespace Nat :=
  ((buildNamespace [Decl.member "READ" 1, Decl.member "WRITE" 2]).toOption).getD
    emptyNamespace

/-- A hit in `_value_to_member_map_` returns the member registered under
that key, whose `_value_` is the key itself. -/
theorem lookupValue_some_val {ft : FlagType} {v : Int} {m : String × Nat}
    (h : lookupValue ft v = some m) : (m.2 : Int) = v := by
  unfold lookupValue at h
  rcases Option.map_eq_some'.mp h with ⟨p, hp, hpm⟩
  have := List.find?_some hp
  simp only [decide_eq_true_eq] at this
  subst hpm
  simpa using this

/-- Declared flag values are natural numbers, so a negative value never
hits `_value_to_member_map_`. -/
theorem lookupValue_neg {ft : FlagType} {v : Int} (h : v < 0) :
    lookupValue ft v = none := by
  unfold lookupValue
  rcases hf : (valueToMember ft).find? (fun p => decide ((p.1 : Int) = v)) with _ | p
  · rw [hf]; rfl
  · have := List.find?_some hf
    simp only [decide_eq_true_eq] at this
    omega

/-- Bitwise and of a natural number with any integer is non-negative. -/
theorem int_land_nonneg (m : Nat) (v : Int) : 0 ≤ Int.land (m : Int) v := by
  cases v with
  | ofNat n => exact Int.ofNat_nonneg _
  | negSucc n => exact Int.ofNat_nonneg _

/-- Python `~~v = v`. -/
theorem lnot_lnot (v : Int) : Int.lnot (Int.lnot v) = v := by
  cases v <;> rfl

/-- The value returned by the non-negative cast body is always the cast
argument itself: a declared hit returns the member registered under that
key, a cache hit returns the cached pseudo-member for that key, and a miss
synthesizes a pseudo-member with that value. -/
theorem castNonneg_fst (ft : FlagType) (c : Cache) (v : Int) :
    (castNonneg ft c v).1 = v := by
  rcases h : lookupValue ft v with _ | m
  · simp only [castNonneg, h, castCache]
    split <;> rfl
  · simp only [castNonneg, h]
    simpa using lookupValue_some_val h

/-- On a non-negative argument the full call body and the non-negative
body agree: the `value < 0` branch cannot fire. -/
theorem flagCast_eq_castNonneg (ft : FlagType) (c : Cache) (v : Int) (h : 0 ≤ v) :
    flagCast ft c v = castNonneg ft c v := by
  unfold flagCast castNonneg
  rcases lookupValue ft v with _ | m
  · simp [show ¬v < 0 by omega]
  · rfl

/-- Value returned for a non-negative argument: the argument itself. -/
theorem flagCast_fst_nonneg (ft : FlagType) (c : Cache) (v : Int) (h : 0 ≤ v) :
    (flagCast ft c v).1 = v := by
  rw [flagCast_eq_castNonneg ft c v h, castNonneg_fst]

/-- Value returned for a negative argument: the source computes
`cls.__everything__ - ~value`, which lands on `everything & value`. -/
theorem flagCast_fst_neg (ft : FlagType) (c : Cache) (v : Int) (h : v < 0) :
    (flagCast ft c v).1 = Int.land (everything ft : Int) v := by
  unfold flagCast
  rw [lookupValue_neg h]
  simp only [h, if_pos, lnot_lnot, castNonneg_fst]

/-- The value of the member returned by a cast does not depend on the
cache contents. -/
theorem flagCast_fst (ft : FlagType) (c : Cache) (v : Int) :
    (flagCast ft c v).1 = castVal ft v := by
  by_cases h : v < 0
  · rw [flagCast_fst_neg ft c v h, castVal, flagCast_fst_neg ft [] v h]
  · rw [flagCast_fst_nonneg ft c v (by omega), castVal,
      flagCast_fst_nonneg ft [] v (by omega)]

/-- Casting a non-negative value returns a member with exactly that value. -/
theorem castVal_of_nonneg (ft : FlagType) (v : Int) (h : 0 ≤ v) :
    castVal ft v = v :=
  flagCast_fst_nonneg ft [] v h

/-- Casting a negative value returns a member with value `everything & v`. -/
theorem castVal_of_neg (ft : FlagType) (v : Int) (h : v < 0) :
    castVal ft v = Int.land (everything ft : Int) v :=
  flagCast_fst_neg ft [] v h

/-- Bitwise set difference with zero removes nothing. -/
theorem ldiff_zero (m : Nat) : Nat.ldiff m 0 = m := by
  apply Nat.eq_of_testBit_eq
  intro i
  simp [Nat.testBit_ldiff]

/-- Python `M & -1 = M` for a natural `M`. -/
theorem int_land_neg_one (m : Nat) : Int.land (m : Int) (-1) = (m : Int) := by
  show Int.land (Int.ofNat m) (Int.negSucc 0) = Int.ofNat m
  show (Int.ofNat (Nat.ldiff m 0)) = Int.ofNat m
  rw [ldiff_zero]

/-- One pass through the cache path keeps the cache within capacity. -/
theorem castCache_snd_length (c : Cache) (v : Int)
    (h : c.length ≤ MAX_CACHED_MEMBERS) :
    (castCache c v).2.length ≤ MAX_CACHED_MEMBERS := by
  unfold castCache
  split
  · exact h
  · simp only []
    split
    · simpa using by omega
    · simp only [List.length_append, List.length_cons, List.length_nil] at *
      omega

/-- The non-negative cast body keeps the cache within capacity. -/
theorem castNonneg_snd_length (ft : FlagType) (c : Cache) (v : Int)
    (h : c.length ≤ MAX_CACHED_MEMBERS) :
    (castNonneg ft c v).2.length ≤ MAX_CACHED_MEMBERS := by
  unfold castNonneg
  split
  · exact h
  · exact castCache_snd_length c v h

/-- A full call keeps the cache within capacity. -/
theorem flagCast_snd_length (ft : FlagType) (c : Cache) (v : Int)
    (h : c.length ≤ MAX_CACHED_MEMBERS) :
    (flagCast ft c v).2.length ≤ MAX_CACHED_MEMBERS := by
  unfold flagCast
  split
  · exact h
  · split
    · exact castNonneg_snd_length ft _ _ (castNonneg_snd_length ft c _ h)
    · exact castCache_snd_length c v h

/-- With the cache at capacity, the cache path gives the cache back
unchanged: a fresh pseudo-member is appended and `popitem()` immediately
removes it again (`dict.popitem` is LIFO). -/
theorem castCache_snd_full (c : Cache) (v : Int)
    (h : MAX_CACHED_MEMBERS ≤ c.length) :
    (castCache c v).2 = c := by
  unfold castCache
  split
  · rfl
  · simp only []
    rw [if_pos (by simp only [List.length_append, List.length_cons, List.length_nil]; omega)]
    exact List.dropLast_concat

/-- With the cache at capacity, the non-negative body never changes it. -/
theorem castNonneg_snd_full (ft : FlagType) (c : Cache) (v : Int)
    (h : MAX_CACHED_MEMBERS ≤ c.length) :
    (castNonneg ft c v).2 = c := by
  unfold castNonneg
  split
  · rfl
  · exact castCache_snd_full c v h

/-- Two numbers with no common set bit have bitwise and zero. -/
theorem land_eq_zero_of_no_common (p v : Nat)
    (h : ∀ t, ¬(p.testBit t = true ∧ v.testBit t = true)) : p &&& v = 0 := by
  apply Nat.eq_of_testBit_eq
  intro i
  rw [Nat.testBit_and, Nat.zero_testBit]
  rcases hp : p.testBit i <;> rcases hv : v.testBit i <;> simp_all

/-- A nonzero bitwise and exhibits a common set bit. -/
theorem exists_common_of_land_ne_zero {p v : Nat} (h : p &&& v ≠ 0) :
    ∃ t, p.testBit t = true ∧ v.testBit t = true := by
  by_contra hc
  push_neg at hc
  exact h (land_eq_zero_of_no_common p v (by intro t ht; exact hc t ht.1 ht.2))

/-- Subtracting one only disturbs bits at and below the lowest set bit:
above a set bit `i`, the bits of `p - 1` agree with those of `p`. -/
theorem sub_one_testBit_of_lower {p : Nat} {i j : Nat} (hij : i < j)
    (hi : p.testBit i = true) : (p - 1).testBit j = p.testBit j := by
  have h2j : 0 < 2 ^ j := Nat.pos_pow_of_pos j (by omega)
  have hmod : p % 2 ^ j ≠ 0 := by
    intro h0
    have := Nat.testBit_mod_two_pow p j i
    rw [h0, Nat.zero_testBit] at this
    simp [hij, hi] at this
  have hdiv : (p - 1) / 2 ^ j = p / 2 ^ j := by
    have hdm := Nat.div_add_mod p (2 ^ j)
    have hr : p % 2 ^ j < 2 ^ j := Nat.mod_lt _ h2j
    have hpe : p - 1 = (p % 2 ^ j - 1) + 2 ^ j * (p / 2 ^ j) := by omega
    rw [hpe, Nat.add_mul_div_left _ _ h2j, Nat.div_eq_of_lt (by omega)]
    omega
  rw [Nat.testBit_to_div_mod, Nat.testBit_to_div_mod, hdiv]

/-- The Python power-of-two test `not (value & value - 1)` guarantees a
single set bit: two set bit positions coincide. -/
theorem testBit_unique_of_land_pred {p : Nat} (h : p &&& (p - 1) = 0) :
    ∀ i j, p.testBit i = true → p.testBit j = true → i = j := by
  have aux : ∀ i j, i < j → p.testBit i = true → p.testBit j = true → False := by
    intro i j hij hi hj
    have hj1 : (p - 1).testBit j = true := by rw [sub_one_testBit_of_lower hij hi]; exact hj
    have hc := congrArg (fun x => Nat.testBit x j) h
    simp only [Nat.testBit_and, Nat.zero_testBit] at hc
    rw [hj, hj1] at hc
    simp at hc
  intro i j hi hj
  rcases Nat.lt_trichotomy i j with hlt | heq | hgt
  · exact absurd (aux i j hlt hi hj) (by simp)
  · exact heq
  · exact absurd (aux j i hgt hj hi) (by simp)

/-- Bit `i` of a list OR is the OR of the bits `i`. -/
theorem natOr_testBit (l : List Nat) (i : Nat) :
    (natOr l).testBit i = l.any (fun x => x.testBit i) := by
  induction l with
  | nil => simp [natOr]
  | cons x xs ih =>
    show (x ||| natOr xs).testBit i = _
    rw [Nat.testBit_or, ih]
    simp

/-- Entries after a `dict` insertion: an old entry or the inserted pair. -/
theorem mem_dictInsert {κ β : Type} [DecidableEq κ] {d : List (κ × β)} {k : κ} {v : β}
    {q : κ × β} (h : q ∈ dictInsert d k v) : q ∈ d ∨ q = (k, v) := by
  unfold dictInsert at h
  split at h
  · rcases List.mem_map.mp h with ⟨p, hp, he⟩
    by_cases hk : p.1 = k
    · right
      rw [if_pos hk] at he
      exact he.symm
    · left
      rw [if_neg hk] at he
      exact he ▸ hp
  · rcases List.mem_append.mp h with h1 | h1
    · exact Or.inl h1
    · exact Or.inr (List.mem_singleton.mp h1)

/-- Every key of `_powers_of_2_to_member_map_` passes the source guard
`not (value & value - 1)`. -/
theorem powersOf2Map_key_pow2 (ft : FlagType) :
    ∀ p ∈ powersOf2Map ft, p.1 &&& (p.1 - 1) = 0 := by
  unfold powersOf2Map
  suffices h : ∀ (ms : List (String × Nat)) (d : List (Nat × String)),
      (∀ p ∈ d, p.1 &&& (p.1 - 1) = 0) →
      ∀ p ∈ ms.foldl
        (fun d m => if m.2 &&& (m.2 - 1) = 0 then dictInsert d m.2 m.1 else d) d,
        p.1 &&& (p.1 - 1) = 0 by
    exact h ft.members [] (by simp)
  intro ms
  induction ms with
  | nil => intro d hd p hp; exact hd p hp
  | cons m ms ih =>
    intro d hd p hp
    refine ih _ ?_ p hp
    intro q hq
    dsimp only at hq
    by_cases hg : m.2 &&& (m.2 - 1) = 0
    · rw [if_pos hg] at hq
      rcases mem_dictInsert hq with h1 | h1
      · exact hd q h1
      · rw [h1]
        exact hg
    · rw [if_neg hg] at hq
      exact hd q hq

/-- C6 counterexample: `B = 6` is a declared member of the flag `A = 1,
B = 6`, but `split` on its value returns the empty list (no declared
power-of-two member overlaps `6`), whose bitwise OR `0` is not the
original value `6`.  The claim "for all declared Flag members, `split()`
returns exactly the powers-of-two members whose bitwise OR equals the
original value" therefore fails as stated. -/
theorem C6_split_or_counterexample :
    ("B", 6) ∈ ftAB.members ∧ split ftAB 6 = [] ∧
      natOr ((split ftAB 6).map (fun m => m.2)) ≠ 6 := by
  decide

/-- C6 (amended): `split()` returns exactly the declared power-of-two
members whose bit overlaps the value, sorted by name; their bitwise OR
equals the original value whenever every bit of the value is covered by
the declared power-of-two members; in particular
`cast(3).split() == [READ, WRITE]` on `READ = 1, WRITE = 2, EXECUTE = 4`. -/
theorem C6_split_amended (ft : FlagType) (v : Nat) :
    (∀ m, m ∈ split ft v ↔ m ∈ powersMembers ft ∧ m.2 &&& v ≠ 0) ∧
      List.Sorted byName (split ft v) ∧
      (v &&& natOr ((powersOf2Map ft).map (fun p => p.1)) = v →
        natOr ((split ft v).map (fun m => m.2)) = v) ∧
      split ftRWE 3 = [("READ", 1), ("WRITE", 2)] := by
  have hmem : ∀ m, m ∈ split ft v ↔ m ∈ powersMembers ft ∧ m.2 &&& v ≠ 0 := by
    intro m
    unfold split
    rw [List.mem_insertionSort, List.mem_filter]
    simp
  refine ⟨hmem, List.sorted_insertionSort byName _, ?_, by decide⟩
  intro hcov
  apply Nat.eq_of_testBit_eq
  intro i
  rw [natOr_testBit]
  rcases hv : v.testBit i with _ | _
  · rw [List.any_eq_false]
    intro x hx
    rcases List.mem_map.mp hx with ⟨m, hms, hxm⟩
    rcases (hmem m).mp hms with ⟨hpm, hland⟩
    rcases List.mem_map.mp hpm with ⟨p, hpp, hmp⟩
    have hkey : m.2 = p.1 := by rw [← hmp]
    have hsingle := testBit_unique_of_land_pred (hkey ▸ powersOf2Map_key_pow2 ft p hpp)
    rcases exists_common_of_land_ne_zero hland with ⟨t, hmt, hvt⟩
    intro hxi
    rw [← hxm] at hxi
    rw [hsingle t i hmt hxi] at hvt
    rw [hv] at hvt
    exact Bool.false_ne_true hvt
  · have hP : (natOr ((powersOf2Map ft).map (fun p => p.1))).testBit i = true := by
      have hc := congrArg (fun x => Nat.testBit x i) hcov
      simp only [Nat.testBit_and] at hc
      rw [hv] at hc
      rcases hPi : (natOr ((powersOf2Map ft).map (fun p => p.1))).testBit i with _ | _
      · rw [hPi] at hc; simp at hc
      · exact hPi
    rw [natOr_testBit] at hP
    rcases List.any_eq_true.mp hP with ⟨x, hx, hxi⟩
    rcases List.mem_map.mp hx with ⟨p, hpp, hxp⟩
    have hpi : p.1.testBit i = true := by rw [hxp]; exact hxi
    have hland : p.1 &&& v ≠ 0 := by
      intro h0
      have hc := congrArg (fun x => Nat.testBit x i) h0
      simp only [Nat.testBit_and, Nat.zero_testBit] at hc
      rw [hpi, hv] at hc
      simp at hc
    have hsplit : (p.2, p.1) ∈ split ft v := by
      refine (hmem (p.2, p.1)).mpr ⟨List.mem_map.mpr ⟨p, hpp, rfl⟩, hland⟩
    rw [List.any_eq_true]
    exact ⟨p.1, List.mem_map.mpr ⟨(p.2, p.1), hsplit, rfl⟩, hpi⟩

/-- Witness for C6 (amended) at the example flag and value `5`. -/
theorem C6_split_amended_witness :
    (("EXECUTE", 4) ∈ split ftRWE 5 ↔
        ("EXECUTE", 4) ∈ powersMembers ftRWE ∧ 4 &&& 5 ≠ 0) ∧
      List.Sorted byName (split ftRWE 5) ∧
      ((5 : Nat) &&& natOr ((powersOf2Map ftRWE).map (fun p => p.1)) = 5 ∧
        natOr ((split ftRWE 5).map (fun m => m.2)) = 5) ∧
      split ftRWE 3 = [("READ", 1), ("WRITE", 2)] := by
  have h := C6_split_amended ftRWE 5
  exact ⟨h.1 _, h.2.1, ⟨by decide, h.2.2.1 (by decide)⟩, h.2.2.2⟩

/-- C1: the claim states `is_subset(a, b) ⇔ (a & b) == a` and
`is_superset(a, b) ⇔ (b & a) == b`, with `is_subset(cast(1), cast(3))`
true on `READ = 1, WRITE = 2, EXECUTE = 4` — and the methods' own
docstrings agree with the claim.  The code computes the swapped tests:
`is_subset` returns `(self & other) == other` and `is_superset` returns
`(self & other) == self`, so at the claimed instance `is_subset(cast(1),
cast(3))` evaluates to `False` even though `1 & 3 == 1`, and
`is_superset(cast(1), cast(3))` evaluates to `True`.  This evaluates the
code at the failing input. -/
theorem C1_is_subset_code_eval :
    is_subset ftRWE 1 3 = false ∧ is_superset ftRWE 1 3 = true ∧
      Int.land 1 3 = 1 := by
  decide

/-- C2: casting any representable integer, negative values included, is a
total operation (`castVal` is a total function returning the value of the
member produced, declared or synthesized) and satisfies the round-trip law
`cast(cast(x).value) == cast(x)`. -/
theorem C2_cast_roundtrip (ft : FlagType) (x : Int) :
    castVal ft (castVal ft x) = castVal ft x := by
  by_cases h : x < 0
  · rw [castVal_of_neg ft x h]
    exact castVal_of_nonneg _ _ (int_land_nonneg _ _)
  · rw [castVal_of_nonneg ft x (by omega)]
    exact castVal_of_nonneg _ _ (by omega)

/-- C4: casting a negative integer `v` (which can never match a declared
value) is normalized via `everything_value - bitwise_not(v)` — the set
difference of the everything member with `~v`, which equals
`everything & v` — and routed back through `cast`; in particular
`cast(-1) == cast(M)` where `M` is the bitwise OR of the declared values. -/
theorem C4_negative_normalization (ft : FlagType) (v : Int) (h : v < 0) :
    castVal ft v = difference ft (everything ft : Int) (Int.lnot v) ∧
      castVal ft v = castVal ft (Int.land (everything ft : Int) v) ∧
      castVal ft (-1 : Int) = castVal ft ((everything ft : Nat) : Int) := by
  refine ⟨?_, ?_, ?_⟩
  · rw [castVal_of_neg ft v h]
    unfold difference
    rw [lnot_lnot,
      castVal_of_nonneg ft _ (int_land_nonneg _ _),
      castVal_of_nonneg ft _ (int_land_nonneg _ _)]
  · rw [castVal_of_neg ft v h,
      castVal_of_nonneg ft _ (int_land_nonneg _ _)]
  · rw [castVal_of_neg ft (-1) (by omega), int_land_neg_one,
      castVal_of_nonneg ft _ (by omega)]

/-- Witness for C4 at the example flag and `v = -5`. -/
theorem C4_negative_normalization_witness :
    (-5 : Int) < 0 ∧
      (castVal ftRWE (-5) = difference ftRWE (everything ftRWE : Int) (Int.lnot (-5)) ∧
        castVal ftRWE (-5) = castVal ftRWE (Int.land (everything ftRWE : Int) (-5)) ∧
        castVal ftRWE (-1 : Int) = castVal ftRWE ((everything ftRWE : Nat) : Int)) :=
  ⟨by decide, C4_negative_normalization ftRWE (-5) (by decide)⟩

/-- C5: the capacity is `4096`, and starting from any cache within
capacity — the type starts with an empty cache — every sequence of casts,
in particular one synthesizing more than `4096` distinct non-declared
combinations, leaves the cache within `4096` entries after each completed
cast (every intermediate cache is `castMany` of a prefix). -/
theorem C5_cache_bound (ft : FlagType) (c : Cache) (vs : List Int)
    (h : c.length ≤ MAX_CACHED_MEMBERS) :
    MAX_CACHED_MEMBERS = 4096 ∧
      (castMany ft c vs).length ≤ MAX_CACHED_MEMBERS := by
  refine ⟨rfl, ?_⟩
  induction vs generalizing c with
  | nil => exact h
  | cons v vs ih =>
    exact ih _ (flagCast_snd_length ft c v h)

/-- Witness for C5 with an empty starting cache. -/
theorem C5_cache_bound_witness :
    ([] : Cache).length ≤ MAX_CACHED_MEMBERS ∧
      (MAX_CACHED_MEMBERS = 4096 ∧
        (castMany ftRWE [] [8, 9, 8, 10]).length ≤ MAX_CACHED_MEMBERS) :=
  ⟨by decide, C5_cache_bound ftRWE [] [8, 9, 8, 10] (by decide)⟩

/-- C9: when the cache is full, inserting a newly synthesized pseudo-member
pushes it over capacity and `popitem()` — LIFO on a Python dict — evicts
exactly the entry just added, so a completed cast leaves a full cache
unchanged; when the cast synthesized a new pseudo-member (non-negative
value, no declared match, no cache hit), that member is returned to the
caller with the cast value but is not retained in the cache. -/
theorem C9_full_cache_eviction (ft : FlagType) (c : Cache) (v : Int)
    (h : c.length = MAX_CACHED_MEMBERS) :
    (flagCast ft c v).2 = c ∧
      (0 ≤ v → lookupValue ft v = none → List.contains c v = false →
        (flagCast ft c v).1 = v ∧ List.contains (flagCast ft c v).2 v = false) := by
  have hfull : (flagCast ft c v).2 = c := by
    unfold flagCast
    split
    · rfl
    · split
      · dsimp only
        rw [castNonneg_snd_full ft c _ h.ge]
        exact castNonneg_snd_full ft c _ h.ge
      · exact castCache_snd_full c v h.ge
  refine ⟨hfull, fun h0 _ hc => ⟨flagCast_fst_nonneg ft c v h0, ?_⟩⟩
  rw [hfull]
  exact hc

/-- Witness for C9: a concrete full cache (keys `10 ... 4105`), the
undeclared fresh value `8`. -/
theorem C9_full_cache_eviction_witness :
    fullCache.length = MAX_CACHED_MEMBERS ∧ (0 : Int) ≤ 8 ∧
      lookupValue ftRWE 8 = none ∧ List.contains fullCache 8 = false ∧
      ((flagCast ftRWE fullCache 8).2 = fullCache ∧
        (flagCast ftRWE fullCache 8).1 = 8 ∧
        List.contains (flagCast ftRWE fullCache 8).2 8 = false) := by
  have hlen : fullCache.length = MAX_CACHED_MEMBERS := by
    unfold fullCache
    rw [List.length_map, List.length_range]
  have hnotmem : ¬(8 : Int) ∈ fullCache := by
    unfold fullCache
    intro hx
    rcases List.mem_map.mp hx with ⟨n, _, hn⟩
    simp only [Int.ofNat_eq_coe] at hn
    omega
  have hmem : List.contains fullCache 8 = false := by simpa using hnotmem
  have main := C9_full_cache_eviction ftRWE fullCache 8 hlen
  exact ⟨hlen, by decide, by decide, hmem,
    main.1, (main.2 (by decide) (by decide) hmem).1,
    (main.2 (by decide) (by decide) hmem).2⟩

/-- If no declared member whose bits lie entirely inside `value` exists,
the resolver loop yields nothing and leaves `remaining` untouched. -/
theorem nameLoop_no_match (members : List (Nat × String)) (value : Nat)
    (hnm : ∀ b s, alookup b members = some s → b &&& value ≠ b) :
    ∀ bit hb, nameLoop members value bit value hb = ([], value) := by
  intro bit hb
  generalize hk : value + 1 - bit = k
  induction k using Nat.strong_induction_on generalizing bit with
  | _ k ih =>
    rw [nameLoop]
    split
    · rename_i hle
      rcases hlk : alookup bit members with _ | n
      · exact ih (value + 1 - 2 * bit) (by omega) (2 * bit) (by omega) rfl
      · dsimp only
        rw [if_neg (hnm _ _ hlk)]
        exact ih (value + 1 - 2 * bit) (by omega) (2 * bit) (by omega) rfl
    · rfl

/-- Joining a single token is the token itself. -/
theorem intercalate_single (sep a : String) : String.intercalate sep [a] = a := rfl

/-- The declared value map of the example flag, evaluated. -/
theorem valueToMember_ftRWE :
    valueToMember ftRWE = [(1, "READ"), (2, "WRITE"), (4, "EXECUTE")] := by
  decide

/-- C7: the display name scans bit positions in ascending order up to the
value, emitting the name of each declared power-of-two member whose bit is
still present and clearing it; if no declared bit matched the result is
the single token `UNKNOWN 0x<hex>` (first conjunct, for any flag whose
declared members never lie wholly inside `v`); when some bits matched and
others remain, the leftover is appended as a hexadecimal token and the
tokens joined with `|` — `cast(11) = READ|WRITE|0x8`, `cast(3) =
READ|WRITE`, and in particular `cast(8)` displays as `UNKNOWN 0x8` on
`READ = 1, WRITE = 2, EXECUTE = 4`. -/
theorem C7_display_name (ft : FlagType) (v : Nat)
    (hnm : ∀ b s, alookup b (valueToMember ft) = some s → b &&& v ≠ b) :
    displayName ft v = "UNKNOWN 0x" ++ hexStr v ∧
      displayName ftRWE 8 = "UNKNOWN 0x8" ∧
      displayName ftRWE 11 = "READ|WRITE|0x8" ∧
      displayName ftRWE 3 = "READ|WRITE" := by
  refine ⟨?_, ?_, ?_, ?_⟩
  · unfold displayName nameResolver
    rw [nameLoop_no_match (valueToMember ft) v hnm 1]
    simp [intercalate_single]
  · unfold displayName nameResolver
    rw [valueToMember_ftRWE]
    simp [nameLoop, alookup, intercalate_single, hexStr]
    decide
  · unfold displayName nameResolver
    rw [valueToMember_ftRWE]
    simp [nameLoop, alookup]
    decide
  · unfold displayName nameResolver
    rw [valueToMember_ftRWE]
    simp [nameLoop, alookup]
    decide

/-- A successful association lookup exhibits a list entry. -/
theorem alookup_mem {κ β : Type} [DecidableEq κ] {d : List (κ × β)} {k : κ} {v : β}
    (h : alookup k d = some v) : (k, v) ∈ d := by
  induction d with
  | nil => exact absurd h (by simp [alookup])
  | cons p d ih =>
    unfold alookup at h
    split at h
    · rename_i hk
      cases p with
      | mk a b =>
        simp only at hk
        simp only [Option.some_inj] at h
        subst hk
        subst h
        exact List.mem_cons_self _ _
    · exact List.mem_cons_of_mem p (ih h)

/-- Witness for C7 at the example flag and value `8`: none of the declared
members `1, 2, 4` lies inside `8`. -/
theorem C7_display_name_witness :
    displayName ftRWE 8 = "UNKNOWN 0x" ++ hexStr 8 ∧
      displayName ftRWE 8 = "UNKNOWN 0x8" ∧
      displayName ftRWE 11 = "READ|WRITE|0x8" ∧
      displayName ftRWE 3 = "READ|WRITE" := by
  refine C7_display_name ftRWE 8 ?_
  intro b s h
  have hm := alookup_mem h
  rw [valueToMember_ftRWE] at hm
  simp at hm
  rcases hm with ⟨rfl, rfl⟩ | ⟨rfl, rfl⟩ | ⟨rfl, rfl⟩ <;> decide

/-- C10: for a flag type that declares no member with value `0`, the
zero-argument call (whose `value` parameter defaults to `0`) synthesizes a
pseudo-member with value `0` — from an empty cache it returns that member
and caches it — and its display name is the single token `UNKNOWN 0x0`. -/
theorem C10_zero_cast (ft : FlagType) (c : Cache) (h : lookupValue ft 0 = none) :
    (flagCastDefault ft c).1 = 0 ∧ flagCastDefault ft [] = (0, [0]) ∧
      displayName ft 0 = "UNKNOWN 0x0" := by
  refine ⟨flagCast_fst_nonneg ft c 0 le_rfl, ?_, ?_⟩
  · unfold flagCastDefault flagCast
    rw [h]
    simp [castCache, MAX_CACHED_MEMBERS]
  · unfold displayName nameResolver
    rw [nameLoop]
    simp [intercalate_single, hexStr]
    decide

/-- Witness for C10 at the example flag (which declares no zero member). -/
theorem C10_zero_cast_witness :
    lookupValue ftRWE 0 = none ∧
      ((flagCastDefault ftRWE []).1 = 0 ∧ flagCastDefault ftRWE [] = (0, [0]) ∧
        displayName ftRWE 0 = "UNKNOWN 0x0") :=
  ⟨by decide, C10_zero_cast ftRWE [] (by decide)⟩

/-- C3: for every built enum, casting a value that matches a registered
entry returns that member, and casting anything else returns the value
itself unchanged; no error is raised either way (`enumCast` is total). -/
theorem C3_enum_cast_passthrough {α : Type} [DecidableEq α] (bm : BuiltMaps α) (v : α) :
    (∀ n, alookup v bm.value_to_member = some n → enumCast bm v = Sum.inl (n, v)) ∧
      (alookup v bm.value_to_member = none → enumCast bm v = Sum.inr v) := by
  unfold enumCast
  constructor
  · intro n h
    rw [h]
  · intro h
    rw [h]

/-- Witness for C3 on the enum `X = 1, Y = 2`: a declared hit and an
undeclared miss. -/
theorem C3_enum_cast_passthrough_witness :
    (alookup (1 : Int) bmXY.value_to_member = some "X" ∧
        enumCast bmXY 1 = Sum.inl ("X", 1)) ∧
      (alookup (5 : Int) bmXY.value_to_member = none ∧
        enumCast bmXY 5 = Sum.inr 5) :=
  ⟨⟨by decide, (C3_enum_cast_passthrough bmXY 1).1 "X" (by decide)⟩,
    ⟨by decide, (C3_enum_cast_passthrough bmXY 5).2 (by decide)⟩⟩

/-- Python `setdefault` is the identity when the key is present. -/
theorem dictSetdefault_present {κ β : Type} [DecidableEq κ] {d : List (κ × β)} {k : κ}
    (v : β) (h : (alookup k d).isSome) : dictSetdefault d k v = d := by
  unfold dictSetdefault
  rw [if_pos h]

/-- C8: declaring a deprecated alias fails with the `ValueError` message
when no existing member holds the canonical value (first conjunct); on
success the alias adds no new value-to-name mapping (`values_to_names` is
unchanged, second conjunct); the registration loop skips alias entries, so
`value_to_member` never resolves to an alias name (third conjunct); and on
`READ = 1, WRITE = 2, OLD_READ = deprecated(1)` the lookup
`value_to_member[1]` still names `READ`, never `OLD_READ`, while the alias
table redirects `OLD_READ` to `READ` (final conjuncts). -/
theorem C8_deprecated_alias :
    (∀ (α : Type) [DecidableEq α] (ns : EnumNamespace α) (n : String) (v : α)
        (r : String),
      ¬(n = "" ∨ n = "mro") →
      alookup v ns.values_to_names = none →
      setItem ns (Decl.dep n v r) =
        Except.error "deprecated must be used on an existing value") ∧
      (∀ (α : Type) [DecidableEq α] (ns ns2 : EnumNamespace α) (n : String) (v : α)
          (r : String),
        setItem ns (Decl.dep n v r) = Except.ok ns2 →
        ns2.values_to_names = ns.values_to_names) ∧
      (∀ (α : Type) [DecidableEq α] (ns : EnumNamespace α) (v : α) (nm : String),
        alookup v (buildMaps ns).value_to_member = some nm →
        alookup nm ns.depAliases = none) ∧
      alookup 1 (buildMaps nsAlias).value_to_member = some "READ" ∧
      alookup "OLD_READ" nsAlias.depAliases = some ("READ", "2.0.0") := by
  refine ⟨?_, ?_, ?_, by decide, by decide⟩
  · intro α inst ns n v r hn hmiss
    simp only [setItem]
    rw [if_neg hn, hmiss]
  · intro α inst ns ns2 n v r h
    simp only [setItem] at h
    split at h
    · exact Except.noConfusion h
    · rcases hl : alookup v ns.values_to_names with _ | target
      · rw [hl] at h
        exact Except.noConfusion h
      · rw [hl] at h
        split at h
        · exact Except.noConfusion h
        · split at h
          · exact Except.noConfusion h
          · injection h with h2
            rw [← h2]
            exact dictSetdefault_present n (by rw [hl]; rfl)
  · intro α inst ns v nm h
    have hmem := alookup_mem h
    suffices hinv : ∀ q ∈ (buildMaps ns).value_to_member,
        alookup q.2 ns.depAliases = none from hinv (v, nm) hmem
    unfold buildMaps
    suffices haux : ∀ (ms : List (String × α)) (bm : BuiltMaps α),
        (∀ q ∈ bm.value_to_member, alookup q.2 ns.depAliases = none) →
        ∀ q ∈ (ms.foldl
          (fun bm p =>
            if (alookup p.1 ns.depAliases).isSome then bm
            else
              { name_to_member := dictInsert bm.name_to_member p.1 p.2,
                value_to_member := dictInsert bm.value_to_member p.2 p.1,
                member_names := bm.member_names ++ [p.1] }) bm).value_to_member,
          alookup q.2 ns.depAliases = none from
      haux ns.names_to_values ⟨[], [], []⟩ (by simp)
    intro ms
    induction ms with
    | nil => intro bm hbm q hq; exact hbm q hq
    | cons p ms ih =>
      intro bm hbm q hq
      refine ih _ ?_ q hq
      intro q2 hq2
      dsimp only at hq2
      by_cases halias : (alookup p.1 ns.depAliases).isSome
      · rw [if_pos halias] at hq2
        exact hbm q2 hq2
      · rw [if_neg halias] at hq2
        rcases mem_dictInsert hq2 with h1 | h1
        · exact hbm q2 h1
        · rw [h1]
          exact Option.not_isSome_iff_eq_none.mp halias

/-- Witness for C8: the alias with no existing target errors out of a
fresh namespace; the successful alias declaration on `READ = 1, WRITE = 2`
leaves `values_to_names` unchanged; and `value_to_member[1]` of the built
maps still names `READ`. -/
theorem C8_deprecated_alias_witness :
    setItem (emptyNamespace : EnumNamespace Nat) (Decl.dep "OLD" 1 "2.0.0") =
        Except.error "deprecated must be used on an existing value" ∧
      nsAlias.values_to_names = nsRW.values_to_names ∧
      alookup "READ" nsAlias.depAliases = none ∧
      alookup 1 (buildMaps nsAlias).value_to_member = some "READ" ∧
      alookup "OLD_READ" nsAlias.depAliases = some ("READ", "2.0.0") := by
  have h := C8_deprecated_alias
  refine ⟨h.1 Nat emptyNamespace "OLD" 1 "2.0.0" (by decide) (by decide), ?_, ?_,
    h.2.2.2.1, h.2.2.2.2⟩
  · exact h.2.1 Nat nsRW nsAlias "OLD_READ" 1 "2.0.0" (by rfl)
  · exact h.2.2.1 Nat nsAlias 1 "READ" h.2.2.2.1

end Enums
